/-
Verification of the schema-documentation renderer in
src/lib/section/print.html.ts (graphdoc).

The TypeScript source is modelled by a shallow embedding: strings stay
strings, the word-wrap loop becomes structural recursion over the word
list, the GraphQL runtime type objects become an inductive type, and the
renderer class becomes a structure holding its construction-time
configuration together with the external collaborators it consumes
(URL resolver, value literalizer, locale comparison).
-/
import Mathlib

namespace GraphdocPrintHtml

/-! ## Text Wrapper: breakText (print.html.ts lines 18-37) -/

/-- Model of the JavaScript `text.split(/\s+/)`: the string is cut at each
maximal whitespace run; an empty token appears at the front when the string
starts with whitespace, and at the back when it ends with whitespace; the
empty string yields the single token `""`.  The first argument is
`some cur` while scanning a token whose characters (reversed) are `cur`,
and `none` while skipping a whitespace run. -/
def splitWsAux : Option (List Char) → List Char → List String
  | none, [] => [""]
  | some cur, [] => [String.mk cur.reverse]
  | none, c :: rest =>
    if c.isWhitespace then splitWsAux none rest
    else splitWsAux (some [c]) rest
  | some cur, c :: rest =>
    if c.isWhitespace then String.mk cur.reverse :: splitWsAux none rest
    else splitWsAux (some (c :: cur)) rest

/-- Model of `text.split(/\s+/)` as used by `breakText`. -/
def splitWs (text : String) : List String :=
  splitWsAux (some []) text.data

/-- Model of JavaScript `Array.prototype.join(sep)` on a list of strings
(no element of ours is null, so the null-to-empty coercion never fires). -/
def joinSep (sep : String) : List String → String
  | [] => ""
  | [x] => x
  | x :: xs => x ++ sep ++ joinSep sep xs

/-- The while-loop of `breakText` (lines 23-31) followed by the final
flush (lines 33-34): `words` is the remaining word queue and `line` the
current line being built.  Faithful detail: the word is appended FIRST
(with a separating space when the line is nonempty) and the line is
flushed only AFTER its length already exceeds `len`. -/
def breakTextLoop (len : Nat) : List String → String → List String
  | [], line => if line.length > 0 then [line] else []
  | word :: words, line =>
    if (line ++ (if line.length > 0 then " " else "") ++ word).length > len then
      (line ++ (if line.length > 0 then " " else "") ++ word) :: breakTextLoop len words ""
    else breakTextLoop len words (line ++ (if line.length > 0 then " " else "") ++ word)

/-- `breakText(text, len)` from print.html.ts lines 18-37. -/
def breakText (text : String) (len : Nat) : List String :=
  breakTextLoop len (splitWs text) ""

/-- A token is whitespace-free when none of its characters is whitespace. -/
def wsFree (w : String) : Prop := ∀ c ∈ w.data, c.isWhitespace = false

/-- Remove the final word of a line: drop the trailing run of
non-whitespace characters, and the single separating whitespace character
before it when present. -/
def withoutLastWord (s : String) : String :=
  match s.data.reverse.dropWhile (fun c => !c.isWhitespace) with
  | [] => ""
  | _ :: rest => String.mk rest.reverse

/-- Split a character list at every space character (single separators,
matching the single spaces `breakText` inserts between words). -/
def splitSp : List Char → List (List Char)
  | [] => [[]]
  | c :: r =>
    if c = ' ' then [] :: splitSp r
    else
      match splitSp r with
      | [] => [[c]]
      | t :: ts => (c :: t) :: ts

/-- The single spaces glued back between a pending line and the remaining
words: the line is skipped when empty. -/
def glue (line : String) (toks : List String) : String :=
  if line = "" then joinSep " " toks else joinSep " " (line :: toks)

/-- Modelled from the spec: the whitespace-normalized form of an input
text — the input's words joined by single spaces. -/
def normalizedText (text : String) : String :=
  joinSep " " ((splitWs text).filter (fun x => x != ""))

/-! ## The GraphQL runtime objects consumed by the renderer -/

/-- An enum value definition (name, optional description, optional
deprecation reason). -/
structure EnumValDef where
  name : String
  description : Option String
  deprecationReason : Option String

/-- An argument definition (also used for input-object fields): name,
type reference, optional default value.  The default value is carried as
the opaque datum handed to the external value-serialization primitive. -/
structure ArgDefP (τ : Type) where
  name : String
  type : τ
  defaultValue : Option String

/-- A field definition: name, optional description, ordered argument
list, type reference, optional deprecation reason. -/
structure FieldDefP (τ : Type) where
  name : String
  description : Option String
  args : List (ArgDefP τ)
  type : τ
  deprecationReason : Option String

/-- The graphql-js runtime type values the renderer dispatches on with
instanceof: the six named variants plus the List/NonNull wrappers. -/
inductive GType where
  | scalar (name : String) (description : Option String)
  | object (name : String) (description : Option String)
      (interfaces : List GType) (fields : List (FieldDefP GType))
  | interface (name : String) (description : Option String)
      (fields : List (FieldDefP GType))
  | union (name : String) (description : Option String) (types : List GType)
  | enum (name : String) (description : Option String) (values : List EnumValDef)
  | inputObject (name : String) (description : Option String)
      (fields : List (ArgDefP GType))
  | list (ofType : GType)
  | nonNull (ofType : GType)

abbrev ArgDef := ArgDefP GType

abbrev FieldDef := FieldDefP GType

/-- The runtime `.name` property (wrappers carry none; the renderer only
reads it after unwrapping). -/
def GType.name : GType → String
  | .scalar n _ => n
  | .object n _ _ _ => n
  | .interface n _ _ => n
  | .union n _ _ => n
  | .enum n _ _ => n
  | .inputObject n _ _ => n
  | .list _ => ""
  | .nonNull _ => ""

/-- The runtime `.description` property (wrappers carry none). -/
def GType.description : GType → Option String
  | .scalar _ d => d
  | .object _ d _ _ => d
  | .interface _ d _ => d
  | .union _ d _ => d
  | .enum _ d _ => d
  | .inputObject _ d _ => d
  | .list _ => none
  | .nonNull _ => none

/-- Whether the value is a GraphQLList or GraphQLNonNull wrapper. -/
def GType.isWrapper : GType → Bool
  | .list _ => true
  | .nonNull _ => true
  | _ => false

/-- A directive definition: name, arguments, valid locations. -/
structure DirectiveDef where
  name : String
  args : List ArgDef
  locations : List String

/-- The GraphQLSchema object surface the renderer consumes: the type map
(insertion-ordered, as Object.keys enumerates it), the directive list and
the up-to-three root operation types. -/
structure GSchema where
  typeMap : List (String × GType)
  directives : List DirectiveDef
  queryType : Option GType
  mutationType : Option GType
  subscriptionType : Option GType

/-- The record returned by getSections. -/
structure DocumentSection where
  title : String
  description : String

/-! ## Markup Emitter (print.html.ts lines 39-83) -/

def keyword (key : String) : String :=
  "<span class=\"keyword operator ts\">" ++ key ++ "</span>"

def identifier (key : String) : String :=
  "<span class=\"identifier\">" ++ key ++ "</span>"

def parameter (key : String) : String :=
  "<span class=\"variable parameter\">" ++ key ++ "</span>"

def comment (key : String) : String :=
  "<span class=\"comment line\"># " ++ key ++ "</span>"

def property (key : String) : String :=
  "<span class=\"meta\">" ++ key ++ "</span>"

def val (key : String) : String :=
  "<span class=\"string\">" ++ key ++ "</span>"

/-! ## useIdentifier (print.html.ts lines 47-67) -/

/-- The while-loop of useIdentifier (lines 52-61): peel wrappers,
overwriting the single `usedAs` marker on every step, until a named type
is reached. -/
def unwrapLoop : GType → String → String × GType
  | .list t, _ => unwrapLoop t "[]"
  | .nonNull t, _ => unwrapLoop t "!"
  | t, usedAs => (usedAs, t)

/-- The hover text `t.description || t.name` (line 66); the empty string
is falsy in JavaScript, so it also falls back to the name. -/
def descOrName (t : GType) : String :=
  match t.description with
  | some d => if d = "" then t.name else d
  | none => t.name

/-- useIdentifier (print.html.ts lines 47-67). -/
def useIdentifier (type : GType) (url : String) : String :=
  "<a class=\"support type\" href=\"" ++ url ++ "\" title=\""
      ++ descOrName (unwrapLoop type "").2 ++ "\">" ++ (unwrapLoop type "").2.name ++ "</a>"
    ++ (if (unwrapLoop type "").1 ≠ "" then
          "<span class=\"variable language\">" ++ (unwrapLoop type "").1 ++ "</span>"
        else (unwrapLoop type "").1)

/-! ## Filter Policy (print.html.ts lines 87-111) -/

def isSpecDirective (directiveName : String) : Bool :=
  directiveName == "skip" || directiveName == "include" || directiveName == "deprecated"

/-- The check `typename.indexOf` of a double underscore being 0, i.e. the
name starts with the two reserved underscore characters. -/
def isIntrospectionType (typename : String) : Bool :=
  match typename.data with
  | c1 :: c2 :: _ => c1 == '_' && c2 == '_'
  | _ => false

def isBuiltInScalar (typename : String) : Bool :=
  typename == "String" || typename == "Boolean" || typename == "Int" ||
    typename == "Float" || typename == "ID"

def isDefinedType (typename : String) : Bool :=
  !isIntrospectionType typename && !isBuiltInScalar typename

/-! ## The renderer class (print.html.ts lines 113-332) -/

/-- Modelled from the spec: the canonical default deprecation reason text
imported from the external graphql library (DEFAULT_DEPRECATION_REASON). -/
def DEFAULT_DEPRECATION_REASON : String := "No longer supported"

/-- Modelled from the spec: the external GraphQLString scalar, passed to
the value-serialization primitive when literalizing deprecation reasons;
only its identity matters to the renderer. -/
def GraphQLString : GType := GType.scalar "String" none

/-- The HTMLDocumentSchemaPlugin class.  `title` and `url` are the
construction-time configuration (lines 113-122).  The last two fields
model external collaborators the class consumes: `printAstFromValue` is
the composition of the imported `print` and `astFromValue` (Modelled from
the spec: the external value-to-literal serialization primitive of §4.3),
and `localeCompare` models the JavaScript `String.prototype.localeCompare`
(Modelled from the spec: locale-aware lexicographic comparison). -/
structure HTMLDocumentSchemaPlugin where
  title : String
  url : GType → String
  printAstFromValue : String → GType → String
  localeCompare : String → String → Int

/-- value (lines 329-331): `val(print(astFromValue(value, type)))`. -/
def HTMLDocumentSchemaPlugin.value (p : HTMLDocumentSchemaPlugin)
    (value : String) (type : GType) : String :=
  val (p.printAstFromValue value type)

/-- inputValue (lines 241-247); `isNullish` (imported from ../utility,
not under src): Modelled from the spec, absent default means nullish. -/
def HTMLDocumentSchemaPlugin.inputValue (p : HTMLDocumentSchemaPlugin) (arg : ArgDef) : String :=
  arg.name ++ ": " ++ useIdentifier arg.type (p.url arg.type) ++
    (match arg.defaultValue with
     | none => ""
     | some dv => " = " ++ p.value dv arg.type)

/-- args (lines 139-151), receiving the `.args` list of the field or
directive it is called on. -/
def HTMLDocumentSchemaPlugin.args (p : HTMLDocumentSchemaPlugin) (args : List ArgDef) : String :=
  if args.length == 0 then ""
  else "(" ++ joinSep ", " (args.map (fun arg => p.inputValue arg)) ++ ")"

/-- deprecated (lines 153-167), receiving the `.deprecationReason` of the
field or enum value it is called on; `isNullish` is modelled by the
absent Option. -/
def HTMLDocumentSchemaPlugin.deprecated (p : HTMLDocumentSchemaPlugin)
    (deprecationReason : Option String) : String :=
  match deprecationReason with
  | none => ""
  | some reason =>
    if reason = "" ∨ reason = DEFAULT_DEPRECATION_REASON then
      " " ++ keyword "@deprecated"
    else
      " " ++ keyword "@deprecated"
        ++ "(" ++ parameter "reason" ++ ": " ++ val (p.value reason GraphQLString) ++ ")"

/-- desc (lines 169-175); a missing or empty description is falsy. -/
def HTMLDocumentSchemaPlugin.desc (p : HTMLDocumentSchemaPlugin)
    (description : Option String) : String :=
  match description with
  | some d =>
    if d ≠ "" then
      joinSep "\n"
          ((breakText d 50).map (fun descriptionLine => "  " ++ comment descriptionLine))
        ++ "\n"
    else ""
  | none => ""

/-- directive (lines 177-181). -/
def HTMLDocumentSchemaPlugin.directive (p : HTMLDocumentSchemaPlugin)
    (directive : DirectiveDef) : String :=
  keyword "directive" ++ " " ++ keyword ("@" ++ directive.name) ++ p.args directive.args
    ++ " on " ++ joinSep " | " (directive.locations.map (fun location => keyword location))

/-- enum (lines 183-188), receiving the name and value list of the
GraphQLEnumType it is called on. -/
def HTMLDocumentSchemaPlugin.enum (p : HTMLDocumentSchemaPlugin)
    (name : String) (values : List EnumValDef) : String :=
  keyword "enum" ++ " " ++ identifier name ++ " \x7b\n"
    ++ joinSep "\n"
      (values.map (fun v =>
        "\n" ++ p.desc v.description ++ "  " ++ property v.name
          ++ p.deprecated v.deprecationReason))
    ++ "\n" ++ "\x7d"

/-- field (lines 190-195). -/
def HTMLDocumentSchemaPlugin.field (p : HTMLDocumentSchemaPlugin) (field : FieldDef) : String :=
  "\n" ++ p.desc field.description
    ++ "  " ++ property field.name ++ p.args field.args ++ ": "
    ++ useIdentifier field.type (p.url field.type) ++ p.deprecated field.deprecationReason

/-- fields (lines 197-207); `Object.keys(type.getFields())` enumerates
the fields in declaration order. -/
def HTMLDocumentSchemaPlugin.fields (p : HTMLDocumentSchemaPlugin)
    (fields : List FieldDef) : String :=
  joinSep "\n" (fields.map (fun field => p.field field))

/-- inputObject (lines 233-239). -/
def HTMLDocumentSchemaPlugin.inputObject (p : HTMLDocumentSchemaPlugin)
    (name : String) (fields : List ArgDef) : String :=
  keyword "input" ++ " " ++ identifier name ++ " \x7b\n"
    ++ joinSep "\n" (fields.map (fun f => "  " ++ p.inputValue f))
    ++ "\n" ++ "\x7d"

/-- interfaces (lines 249-253). -/
def HTMLDocumentSchemaPlugin.interfaces (p : HTMLDocumentSchemaPlugin)
    (name : String) (fields : List FieldDef) : String :=
  keyword "interface" ++ " " ++ identifier name ++ " \x7b\n"
    ++ p.fields fields ++ "\n" ++ "\x7d"

/-- object (lines 255-268). -/
def HTMLDocumentSchemaPlugin.object (p : HTMLDocumentSchemaPlugin)
    (name : String) (interfaces : List GType) (fields : List FieldDef) : String :=
  keyword "type" ++ " " ++ identifier name
    ++ (if interfaces.length ≠ 0 then
          " " ++ keyword "implements" ++ " "
            ++ joinSep ", " (interfaces.map (fun i => useIdentifier i (p.url i)))
        else "")
    ++ " \x7b\n" ++ p.fields fields ++ "\n" ++ "\x7d"

/-- scalar (lines 270-272). -/
def HTMLDocumentSchemaPlugin.scalar (p : HTMLDocumentSchemaPlugin) (name : String) : String :=
  keyword "scalar" ++ " " ++ identifier name

/-- union (lines 323-327): note the template literal places the name
immediately after the keyword span, with no space and no identifier
markup. -/
def HTMLDocumentSchemaPlugin.union (p : HTMLDocumentSchemaPlugin)
    (name : String) (types : List GType) : String :=
  keyword "union"
    ++ (name ++ " = " ++ joinSep " | " (types.map (fun type => useIdentifier type (p.url type))))

/-- type (lines 299-321): instanceof dispatch over the closed variant
set, defaulting to null. -/
def HTMLDocumentSchemaPlugin.type (p : HTMLDocumentSchemaPlugin) (type : GType) : Option String :=
  match type with
  | .scalar n _ => some (p.scalar n)
  | .object n _ ifs fs => some (p.object n ifs fs)
  | .interface n _ fs => some (p.interfaces n fs)
  | .union n _ ts => some (p.union n ts)
  | .enum n _ vs => some (p.enum n vs)
  | .inputObject n _ fs => some (p.inputObject n fs)
  | .list _ => none
  | .nonNull _ => none

/-- schemaDefinition (lines 278-297): the present root operation types
are pushed in the fixed order query, mutation, subscription. -/
def HTMLDocumentSchemaPlugin.schemaDefinition (p : HTMLDocumentSchemaPlugin)
    (schema : GSchema) : String :=
  keyword "schema" ++ " \x7b\n"
    ++ joinSep "\n"
      ((match schema.queryType with
        | some queryType =>
          ["  " ++ property "query" ++ ": " ++ useIdentifier queryType (p.url queryType)]
        | none => []) ++
       (match schema.mutationType with
        | some mutationType =>
          ["  " ++ property "mutation" ++ ": " ++ useIdentifier mutationType (p.url mutationType)]
        | none => []) ++
       (match schema.subscriptionType with
        | some subscriptionType =>
          ["  " ++ property "subscription" ++ ": "
            ++ useIdentifier subscriptionType (p.url subscriptionType)]
        | none => []))
    ++ "\n\x7d"

/-- The lookup `typeMap[typeName]` (line 223); the default branch is
unreachable when the name comes from the map's own key list. -/
def tmGet (typeMap : List (String × GType)) (typeName : String) : GType :=
  match typeMap.find? (fun e => e.1 == typeName) with
  | some e => e.2
  | none => GType.scalar "" none

/-- The name pipeline of filteredSchema (lines 219-223):
`Object.keys(typeMap).filter(typeFilter).sort(localeCompare)`; the
comparison sort is modelled by the stable insertion sort. -/
def HTMLDocumentSchemaPlugin.sortedTypeNames (p : HTMLDocumentSchemaPlugin)
    (schema : GSchema) (typeFilter : String → Bool) : List String :=
  List.insertionSort (fun name1 name2 => p.localeCompare name1 name2 ≤ 0)
    ((schema.typeMap.map Prod.fst).filter typeFilter)

/-- filteredSchema (lines 209-231). -/
def HTMLDocumentSchemaPlugin.filteredSchema (p : HTMLDocumentSchemaPlugin) (schema : GSchema)
    (directiveFilter : String → Bool) (typeFilter : String → Bool) : String :=
  joinSep "\n\n"
    (p.schemaDefinition schema ::
      ((schema.directives.filter (fun directive => directiveFilter directive.name)).map
          (fun directive => p.directive directive) ++
        ((p.sortedTypeNames schema typeFilter).map
            (fun typeName => tmGet schema.typeMap typeName)).map
          (fun type => (p.type type).getD "")))
    ++ "\n"

/-- schema (lines 274-276). -/
def HTMLDocumentSchemaPlugin.schema (p : HTMLDocumentSchemaPlugin) (schema : GSchema) : String :=
  p.filteredSchema schema (fun n => !isSpecDirective n) isDefinedType

/-- getSections (lines 124-137); the input is either a GraphQLType or the
GraphQLSchema (the instanceof test), and the empty string is falsy in the
`if (definition)` guard. -/
def HTMLDocumentSchemaPlugin.getSections (p : HTMLDocumentSchemaPlugin)
    (type : GType ⊕ GSchema) : Option DocumentSection :=
  match (match type with
         | Sum.inr schema => some (p.schema schema)
         | Sum.inl t => p.type t) with
  | some definition =>
    if definition ≠ "" then
      some ⟨p.title, "<pre class=\"code\">" ++ definition ++ "</pre>"⟩
    else none
  | none => none

/-! ## Definitions written from the words of the spec, for comparison -/

/-- Modelled from the spec: the visible decoration marker of a type
reference — the marker of the innermost wrapper reached before the named
type; a bare named reference carries no marker. -/
def innermostMarker : GType → String
  | .list t => if t.isWrapper then innermostMarker t else "[]"
  | .nonNull t => if t.isWrapper then innermostMarker t else "!"
  | _ => ""

/-- Modelled from the spec: the named type at the bottom of a stack of
wrappers. -/
def innermostNamed : GType → GType
  | .list t => innermostNamed t
  | .nonNull t => innermostNamed t
  | t => t

/-- A string whose last character exists and is not a newline. -/
def lastNotNewline (s : String) : Prop :=
  s.data ≠ [] ∧ s.data.getLast? ≠ some '\n'

instance (s : String) : Decidable (lastNotNewline s) := by
  unfold lastNotNewline
  infer_instance

/-- A concrete renderer instance used to instantiate theorems: constant
URL resolver, identity literalizer, constant locale comparison. -/
def samplePlugin : HTMLDocumentSchemaPlugin :=
  ⟨"Schema Types", fun _ => "#", fun v _ => v, fun _ _ => 0⟩

/-- A concrete schema holding a user type, a built-in scalar, an
introspection type, one custom directive and a query root. -/
def sampleSchema : GSchema :=
  ⟨[("Widget", GType.object "Widget" none [] [⟨"id", none, [], GType.scalar "ID" none, none⟩]),
    ("String", GType.scalar "String" none),
    ("__Schema", GType.object "__Schema" none [] [])],
   [⟨"example", [], ["FIELD"]⟩],
   some (GType.object "Query" none [] []), none, none⟩

/-! ## Elementary String facts used throughout -/

theorem str_data_append (a b : String) : (a ++ b).data = a.data ++ b.data := rfl

theorem str_append_assoc (a b c : String) : a ++ b ++ c = a ++ (b ++ c) :=
  congrArg String.mk (List.append_assoc a.data b.data c.data)

theorem str_empty_append (s : String) : "" ++ s = s := rfl

theorem str_append_empty (s : String) : s ++ "" = s :=
  congrArg String.mk (List.append_nil s.data)

theorem str_length_data (s : String) : s.length = s.data.length := rfl

theorem str_eq_empty_iff (s : String) : s = "" ↔ s.data = [] := by
  constructor
  · intro h; rw [h]
  · intro h
    cases s with
    | mk d =>
      have hd : d = [] := h
      subst hd
      rfl

theorem str_length_pos_iff (s : String) : 0 < s.length ↔ s ≠ "" := by
  rw [str_length_data, List.length_pos]
  exact not_congr (str_eq_empty_iff s).symm

theorem str_length_append (a b : String) : (a ++ b).length = a.length + b.length := by
  rw [str_length_data, str_data_append, List.length_append]; rfl

theorem str_ne_empty_of_append_right {a b : String} (h : b ≠ "") : a ++ b ≠ "" := by
  intro he
  apply h
  have hl := congrArg String.length he
  rw [str_length_append] at hl
  have h0 : ("" : String).length = 0 := rfl
  rw [h0] at hl
  have : b.length = 0 := by omega
  rw [str_length_data, List.length_eq_zero] at this
  exact (str_eq_empty_iff b).mpr this

/-! ## Structure of the tokens produced by splitWs -/

theorem wsFree_splitWsAux :
    ∀ (s : List Char) (mode : Option (List Char)),
      (∀ cur, mode = some cur → ∀ c ∈ cur, c.isWhitespace = false) →
      ∀ w ∈ splitWsAux mode s, wsFree w := by
  intro s
  induction s with
  | nil =>
    intro mode h w hw
    match mode with
    | none =>
      simp only [splitWsAux, List.mem_singleton] at hw
      subst hw
      intro c hc
      simp at hc
    | some cur =>
      simp only [splitWsAux, List.mem_singleton] at hw
      subst hw
      intro c hc
      exact h cur rfl c (by simpa using hc)
  | cons ch rest ih =>
    intro mode h w hw
    match mode with
    | none =>
      by_cases hws : ch.isWhitespace
      · rw [splitWsAux, if_pos hws] at hw
        exact ih none (by simp) w hw
      · rw [splitWsAux, if_neg hws] at hw
        refine ih (some [ch]) ?_ w hw
        intro cur hcur c hc
        injection hcur with e
        subst e
        simp only [List.mem_singleton] at hc
        subst hc
        simpa using hws
    | some cur =>
      by_cases hws : ch.isWhitespace
      · rw [splitWsAux, if_pos hws] at hw
        rcases List.mem_cons.mp hw with rfl | hw
        · intro c hc
          exact h cur rfl c (by simpa using hc)
        · exact ih none (by simp) w hw
      · rw [splitWsAux, if_neg hws] at hw
        refine ih (some (ch :: cur)) ?_ w hw
        intro cur2 hcur c hc
        injection hcur with e
        subst e
        rcases List.mem_cons.mp hc with rfl | hc
        · simpa using hws
        · exact h cur rfl c hc

theorem wsFree_splitWs (text : String) : ∀ w ∈ splitWs text, wsFree w := by
  intro w hw
  exact wsFree_splitWsAux text.data (some []) (by intro cur hc; injection hc with e; subst e; simp) w hw

theorem splitWsAux_ne_nil : ∀ (s : List Char) (mode : Option (List Char)), splitWsAux mode s ≠ [] := by
  intro s
  induction s with
  | nil => intro mode; match mode with
    | none => simp [splitWsAux]
    | some cur => simp [splitWsAux]
  | cons ch rest ih =>
    intro mode
    match mode with
    | none =>
      by_cases hws : ch.isWhitespace
      · rw [splitWsAux, if_pos hws]; exact ih none
      · rw [splitWsAux, if_neg hws]; exact ih (some [ch])
    | some cur =>
      by_cases hws : ch.isWhitespace
      · rw [splitWsAux, if_pos hws]; simp
      · rw [splitWsAux, if_neg hws]; exact ih (some (ch :: cur))

/-- Only the last token produced by the splitter may be the empty string,
provided the scan starts inside a nonempty token. -/
theorem onlyLast_splitWsAux :
    ∀ (s : List Char) (mode : Option (List Char)),
      (∀ cur, mode = some cur → cur ≠ []) →
      ∀ w ∈ (splitWsAux mode s).dropLast, w ≠ "" := by
  intro s
  induction s with
  | nil =>
    intro mode h w hw
    match mode with
    | none => simp [splitWsAux] at hw
    | some cur => simp [splitWsAux] at hw
  | cons ch rest ih =>
    intro mode h w hw
    match mode with
    | none =>
      by_cases hws : ch.isWhitespace
      · rw [splitWsAux, if_pos hws] at hw
        exact ih none (by simp) w hw
      · rw [splitWsAux, if_neg hws] at hw
        exact ih (some [ch]) (by intro cur hc; injection hc with e; subst e; simp) w hw
    | some cur =>
      by_cases hws : ch.isWhitespace
      · rw [splitWsAux, if_pos hws] at hw
        rw [List.dropLast_cons_of_ne_nil (splitWsAux_ne_nil rest none)] at hw
        rcases List.mem_cons.mp hw with rfl | hw
        · have hc : cur ≠ [] := h cur rfl
          intro he
          apply hc
          have := (str_eq_empty_iff _).mp he
          simpa using this
        · exact ih none (by simp) w hw
      · rw [splitWsAux, if_neg hws] at hw
        exact ih (some (ch :: cur)) (by intro cur2 hc; injection hc with e; subst e; simp) w hw

/-- The token list of `splitWs` either has empty tokens only in final
position, or starts with one leading empty token (input starting with
whitespace) followed by such a list. -/
theorem splitWs_cases (text : String) :
    (∀ w ∈ (splitWs text).dropLast, w ≠ "") ∨
      ∃ rest, splitWs text = "" :: rest ∧ ∀ w ∈ rest.dropLast, w ≠ "" := by
  unfold splitWs
  match text.data with
  | [] => left; simp [splitWsAux]
  | c :: rest =>
    by_cases hws : c.isWhitespace
    · right
      refine ⟨splitWsAux none rest, ?_, ?_⟩
      · rw [splitWsAux, if_pos hws]; rfl
      · exact onlyLast_splitWsAux rest none (by simp)
    · left
      rw [splitWsAux, if_neg hws]
      exact onlyLast_splitWsAux rest (some [c]) (by intro cur hc; injection hc with e; subst e; simp)

/-! ## C1: how far a produced line can overflow the width -/

theorem withoutLastWord_length_le (s : String) : (withoutLastWord s).length ≤ s.length := by
  unfold withoutLastWord
  have hd : (s.data.reverse.dropWhile (fun c => !c.isWhitespace)).length ≤ s.data.length := by
    calc (s.data.reverse.dropWhile (fun c => !c.isWhitespace)).length
        ≤ s.data.reverse.length := (List.dropWhile_sublist _).length_le
      _ = s.data.length := List.length_reverse _
  cases hm : s.data.reverse.dropWhile (fun c => !c.isWhitespace) with
  | nil =>
    exact Nat.zero_le _
  | cons c rest =>
    rw [hm] at hd
    simp only [List.length_cons] at hd
    show rest.reverse.length ≤ s.length
    rw [List.length_reverse, str_length_data]
    omega

theorem withoutLastWord_word (w : String) (hw : wsFree w) : withoutLastWord w = "" := by
  unfold withoutLastWord
  have : w.data.reverse.dropWhile (fun c => !c.isWhitespace) = [] := by
    rw [List.dropWhile_eq_nil_iff]
    intro c hc
    simp [hw c (List.mem_reverse.mp hc)]
  rw [this]

theorem withoutLastWord_append (p w : String) (hw : wsFree w) :
    withoutLastWord (p ++ " " ++ w) = p := by
  unfold withoutLastWord
  have hdata : (p ++ " " ++ w).data.reverse = w.data.reverse ++ (' ' :: p.data.reverse) := by
    have h1 : (p ++ " " ++ w).data = (p.data ++ [' ']) ++ w.data := rfl
    rw [h1, List.reverse_append, List.reverse_append]
    rfl
  rw [hdata, List.dropWhile_append]
  have hwrev : w.data.reverse.dropWhile (fun c => !c.isWhitespace) = [] := by
    rw [List.dropWhile_eq_nil_iff]
    intro c hc
    simp [hw c (List.mem_reverse.mp hc)]
  rw [hwrev]
  simp only [List.isEmpty_nil, if_true]
  rw [List.dropWhile_cons, if_neg (by decide)]
  show String.mk p.data.reverse.reverse = p
  rw [List.reverse_reverse]

/-- Loop invariant: the pending line always fits within the width, so a
flushed line exceeds the width only by its final word. -/
theorem breakTextLoop_withoutLastWord (len : Nat) :
    ∀ (ws : List String) (line : String),
      (∀ w ∈ ws, wsFree w) → line.length ≤ len →
      ∀ l ∈ breakTextLoop len ws line, (withoutLastWord l).length ≤ len := by
  intro ws
  induction ws with
  | nil =>
    intro line hws hline l hl
    rw [breakTextLoop] at hl
    split at hl
    · simp only [List.mem_singleton] at hl
      subst hl
      exact le_trans (withoutLastWord_length_le l) hline
    · simp at hl
  | cons w ws ih =>
    intro line hws hline l hl
    have hws' : ∀ x ∈ ws, wsFree x := fun x hx => hws x (List.mem_cons_of_mem w hx)
    have hww : wsFree w := hws w (List.mem_cons_self w ws)
    rw [breakTextLoop] at hl
    by_cases hline0 : line = ""
    · subst hline0
      have hl' : (("" : String) ++ (if ("" : String).length > 0 then " " else "") ++ w) = w := rfl
      rw [hl'] at hl
      by_cases hpush : w.length > len
      · rw [if_pos hpush] at hl
        rcases List.mem_cons.mp hl with rfl | hl
        · rw [withoutLastWord_word _ hww]
          exact Nat.zero_le len
        · exact ih "" hws' (Nat.zero_le len) l hl
      · rw [if_neg hpush] at hl
        exact ih w hws' (Nat.le_of_not_lt hpush) l hl
    · have hpos : line.length > 0 := (str_length_pos_iff line).mpr hline0
      have hl' : (line ++ (if line.length > 0 then " " else "") ++ w) = line ++ " " ++ w := by
        rw [if_pos hpos]
      rw [hl'] at hl
      by_cases hpush : (line ++ " " ++ w).length > len
      · rw [if_pos hpush] at hl
        rcases List.mem_cons.mp hl with rfl | hl
        · rw [withoutLastWord_append line w hww]
          exact hline
        · exact ih "" hws' (Nat.zero_le len) l hl
      · rw [if_neg hpush] at hl
        exact ih (line ++ " " ++ w) hws' (Nat.le_of_not_lt hpush) l hl

/-! ## C2: position of words inside a produced line -/

theorem splitSp_ne_nil (l : List Char) : splitSp l ≠ [] := by
  induction l with
  | nil => simp [splitSp]
  | cons c r ih =>
    rw [splitSp]
    by_cases hc : c = ' '
    · rw [if_pos hc]; simp
    · rw [if_neg hc]
      cases h : splitSp r with
      | nil => simp
      | cons t ts => simp

theorem splitSp_token_length_le (l : List Char) : ∀ t ∈ splitSp l, t.length ≤ l.length := by
  induction l with
  | nil => intro t ht; simp [splitSp] at ht; subst ht; simp
  | cons c r ih =>
    intro t ht
    rw [splitSp] at ht
    by_cases hc : c = ' '
    · rw [if_pos hc] at ht
      rcases List.mem_cons.mp ht with rfl | ht
      · simp
      · exact le_trans (ih t ht) (by simp)
    · rw [if_neg hc] at ht
      cases h : splitSp r with
      | nil => exact absurd h (splitSp_ne_nil r)
      | cons tok ts =>
        rw [h] at ht
        rcases List.mem_cons.mp ht with rfl | ht
        · have : tok.length ≤ r.length := ih tok (by rw [h]; exact List.mem_cons_self _ _)
          simp only [List.length_cons]
          omega
        · have : t ∈ splitSp r := by rw [h]; exact List.mem_cons_of_mem _ ht
          exact le_trans (ih t this) (by simp)

theorem splitSp_no_space (l : List Char) (h : ∀ c ∈ l, c ≠ ' ') : splitSp l = [l] := by
  induction l with
  | nil => rfl
  | cons c r ih =>
    rw [splitSp, if_neg (h c (List.mem_cons_self c r))]
    rw [ih fun x hx => h x (List.mem_cons_of_mem c hx)]

theorem splitSp_append_space (p w : List Char) (hw : ∀ c ∈ w, c ≠ ' ') :
    splitSp (p ++ ' ' :: w) = splitSp p ++ [w] := by
  induction p with
  | nil =>
    rw [List.nil_append]
    conv_lhs => rw [splitSp]
    rw [if_pos rfl, splitSp_no_space w hw]
    rfl
  | cons c p ih =>
    rw [List.cons_append]
    conv_lhs => rw [splitSp]
    conv_rhs => rw [splitSp]
    by_cases hc : c = ' '
    · rw [if_pos hc, if_pos hc, ih, List.cons_append]
    · rw [if_neg hc, if_neg hc, ih]
      cases h : splitSp p with
      | nil => exact absurd h (splitSp_ne_nil p)
      | cons t ts => rfl

/-- A whitespace-free token contains no space character. -/
theorem wsFree_no_space {w : String} (hw : wsFree w) : ∀ c ∈ w.data, c ≠ ' ' := by
  intro c hc he
  have := hw c hc
  rw [he] at this
  simp [Char.isWhitespace] at this

/-- Loop invariant: every word of a produced line other than its final
word fits within the width. -/
theorem breakTextLoop_inner_words (len : Nat) :
    ∀ (ws : List String) (line : String),
      (∀ w ∈ ws, wsFree w) → line.length ≤ len →
      ∀ l ∈ breakTextLoop len ws line, ∀ t ∈ (splitSp l.data).dropLast, t.length ≤ len := by
  intro ws
  induction ws with
  | nil =>
    intro line hws hline l hl t ht
    rw [breakTextLoop] at hl
    split at hl
    · simp only [List.mem_singleton] at hl
      subst hl
      have h1 : t.length ≤ l.data.length := splitSp_token_length_le l.data t (List.dropLast_subset _ ht)
      have h2 : l.data.length ≤ len := by
        rw [← str_length_data]
        exact hline
      exact le_trans h1 h2
    · simp at hl
  | cons w ws ih =>
    intro line hws hline l hl t ht
    have hws' : ∀ x ∈ ws, wsFree x := fun x hx => hws x (List.mem_cons_of_mem w hx)
    have hww : wsFree w := hws w (List.mem_cons_self w ws)
    rw [breakTextLoop] at hl
    by_cases hline0 : line = ""
    · subst hline0
      have hl' : (("" : String) ++ (if ("" : String).length > 0 then " " else "") ++ w) = w := rfl
      rw [hl'] at hl
      by_cases hpush : w.length > len
      · rw [if_pos hpush] at hl
        rcases List.mem_cons.mp hl with rfl | hl
        · rw [splitSp_no_space l.data (wsFree_no_space hww)] at ht
          simp at ht
        · exact ih "" hws' (Nat.zero_le len) l hl t ht
      · rw [if_neg hpush] at hl
        exact ih w hws' (Nat.le_of_not_lt hpush) l hl t ht
    · have hpos : line.length > 0 := (str_length_pos_iff line).mpr hline0
      have hl' : (line ++ (if line.length > 0 then " " else "") ++ w) = line ++ " " ++ w := by
        rw [if_pos hpos]
      rw [hl'] at hl
      by_cases hpush : (line ++ " " ++ w).length > len
      · rw [if_pos hpush] at hl
        rcases List.mem_cons.mp hl with rfl | hl
        · have hdata : (line ++ " " ++ w).data = line.data ++ ' ' :: w.data := by
            rw [str_data_append, str_data_append, List.append_assoc]
            rfl
          rw [hdata, splitSp_append_space line.data w.data (wsFree_no_space hww),
            List.dropLast_concat] at ht
          have h1 : t.length ≤ line.data.length := splitSp_token_length_le line.data t ht
          have h2 : line.data.length ≤ len := by
            rw [← str_length_data]
            exact hline
          exact le_trans h1 h2
        · exact ih "" hws' (Nat.zero_le len) l hl t ht
      · rw [if_neg hpush] at hl
        exact ih (line ++ " " ++ w) hws' (Nat.le_of_not_lt hpush) l hl t ht

/-! ## C8: joining the produced lines back together -/

theorem str_ne_empty_of_append_left {a b : String} (h : a ≠ "") : a ++ b ≠ "" := by
  intro he
  apply h
  have hl := congrArg String.length he
  rw [str_length_append] at hl
  have h0 : ("" : String).length = 0 := rfl
  rw [h0] at hl
  have : a.length = 0 := by omega
  rw [str_length_data, List.length_eq_zero] at this
  exact (str_eq_empty_iff a).mpr this

theorem joinSep_cons_ne (sep x : String) {xs : List String} (h : xs ≠ []) :
    joinSep sep (x :: xs) = x ++ sep ++ joinSep sep xs := by
  cases xs with
  | nil => exact absurd rfl h
  | cons y ys => rfl

theorem breakTextLoop_nil_flush (len : Nat) {line : String} (h : line ≠ "") :
    breakTextLoop len [] line = [line] := by
  rw [breakTextLoop, if_pos ((str_length_pos_iff line).mpr h)]

theorem breakTextLoop_ne_nil_of_line (len : Nat) :
    ∀ (ws : List String) (line : String), line ≠ "" → breakTextLoop len ws line ≠ [] := by
  intro ws
  induction ws with
  | nil =>
    intro line h
    rw [breakTextLoop_nil_flush len h]
    simp
  | cons w ws ih =>
    intro line h
    rw [breakTextLoop]
    by_cases hpush : (line ++ (if line.length > 0 then " " else "") ++ w).length > len
    · rw [if_pos hpush]
      simp
    · rw [if_neg hpush]
      exact ih _ (str_ne_empty_of_append_left (str_ne_empty_of_append_left h))

theorem breakTextLoop_ne_nil_exists (len : Nat) :
    ∀ (ws : List String) (line : String), (∃ x ∈ ws, x ≠ "") → breakTextLoop len ws line ≠ [] := by
  intro ws
  induction ws with
  | nil =>
    intro line h
    simp at h
  | cons w ws ih =>
    intro line h
    rw [breakTextLoop]
    by_cases hpush : (line ++ (if line.length > 0 then " " else "") ++ w).length > len
    · rw [if_pos hpush]
      simp
    · rw [if_neg hpush]
      by_cases hw : w = ""
      · subst hw
        rcases h with ⟨x, hx, hne⟩
        rcases List.mem_cons.mp hx with rfl | hx
        · exact absurd rfl hne
        · exact ih _ ⟨x, hx, hne⟩
      · exact breakTextLoop_ne_nil_of_line len ws _ (str_ne_empty_of_append_right hw)

theorem breakTextLoop_join (len : Nat) :
    ∀ (ws : List String) (line : String),
      (∀ x ∈ ws.dropLast, x ≠ "") →
      joinSep " " (breakTextLoop len ws line) = glue line (ws.filter (fun x => x != "")) ∨
        joinSep " " (breakTextLoop len ws line) =
          glue line (ws.filter (fun x => x != "")) ++ " " := by
  intro ws
  induction ws with
  | nil =>
    intro line _
    left
    by_cases h0 : line = ""
    · subst h0
      rfl
    · rw [breakTextLoop_nil_flush len h0, glue, if_neg h0]
      rfl
  | cons w ws ih =>
    intro line hOLE
    have hOLE' : ∀ x ∈ ws.dropLast, x ≠ "" := by
      intro x hx
      apply hOLE
      cases ws with
      | nil => simp at hx
      | cons y ys =>
        rw [List.dropLast_cons_of_ne_nil (by simp)]
        exact List.mem_cons_of_mem w hx
    by_cases hw : w = ""
    · -- the empty token can only be the last one, so ws = []
      have hws_nil : ws = [] := by
        cases ws with
        | nil => rfl
        | cons y ys =>
          have hne : w ≠ "" := by
            apply hOLE
            rw [List.dropLast_cons_of_ne_nil (by simp)]
            exact List.mem_cons_self _ _
          exact absurd hw hne
      subst hws_nil
      subst hw
      by_cases h0 : line = ""
      · subst h0
        left
        rfl
      · have hpos : line.length > 0 := (str_length_pos_iff line).mpr h0
        have hfilter : List.filter (fun x => x != "") [""] = [] := rfl
        have hglue : glue line [] = line := by
          rw [glue, if_neg h0]
          rfl
        right
        rw [breakTextLoop]
        have hline' : (line ++ (if line.length > 0 then " " else "") ++ "") = line ++ " " := by
          rw [if_pos hpos, str_append_empty]
        rw [hline', hfilter, hglue]
        by_cases hpush : (line ++ " ").length > len
        · rw [if_pos hpush]
          have hnil : breakTextLoop len [] "" = [] := rfl
          rw [hnil]
          rfl
        · rw [if_neg hpush]
          rw [breakTextLoop_nil_flush len (str_ne_empty_of_append_right (by decide))]
          rfl
    · -- w survives the filter
      have hfilter : (w :: ws).filter (fun x => x != "") =
          w :: ws.filter (fun x => x != "") :=
        List.filter_cons_of_pos (bne_iff_ne.mpr hw)
      rw [breakTextLoop, hfilter]
      by_cases h0 : line = ""
      · subst h0
        have hline' : (("" : String) ++ (if ("" : String).length > 0 then " " else "") ++ w) = w := rfl
        rw [hline']
        by_cases hpush : w.length > len
        · rw [if_pos hpush]
          by_cases hF : ws.filter (fun x => x != "") = []
          · have hR : breakTextLoop len ws "" = [] := by
              have hall : ∀ x ∈ ws, x = "" := by
                intro x hx
                have := List.filter_eq_nil_iff.mp hF x hx
                simpa using this
              cases ws with
              | nil => rfl
              | cons y ys =>
                cases ys with
                | nil =>
                  have hy : y = "" := hall y (List.mem_cons_self _ _)
                  subst hy
                  rfl
                | cons z zs =>
                  have hy : y ≠ "" := by
                    apply hOLE'
                    rw [List.dropLast_cons_of_ne_nil (by simp)]
                    exact List.mem_cons_self _ _
                  exact absurd (hall y (List.mem_cons_self _ _)) hy
            rw [hR, hF]
            left
            rfl
          · have hEx : ∃ x ∈ ws, x ≠ "" := by
              by_contra hcon
              push_neg at hcon
              apply hF
              rw [List.filter_eq_nil_iff]
              intro a ha
              simp [hcon a ha]
            have hR : breakTextLoop len ws "" ≠ [] := breakTextLoop_ne_nil_exists len ws "" hEx
            rw [joinSep_cons_ne _ _ hR]
            rw [glue, if_pos rfl, joinSep_cons_ne _ _ hF]
            rcases ih "" hOLE' with hIH | hIH
            · left
              rw [hIH, glue, if_pos rfl]
            · right
              rw [hIH, glue, if_pos rfl]
              simp only [str_append_assoc]
        · rw [if_neg hpush]
          rcases ih w hOLE' with hIH | hIH
          · left
            rw [hIH, glue, if_neg hw, glue, if_pos rfl]
          · right
            rw [hIH, glue, if_neg hw, glue, if_pos rfl]
      · have hpos : line.length > 0 := (str_length_pos_iff line).mpr h0
        have hline' : (line ++ (if line.length > 0 then " " else "") ++ w) = line ++ " " ++ w := by
          rw [if_pos hpos]
        rw [hline']
        have hlw : line ++ " " ++ w ≠ "" := str_ne_empty_of_append_right hw
        by_cases hpush : (line ++ " " ++ w).length > len
        · rw [if_pos hpush]
          by_cases hF : ws.filter (fun x => x != "") = []
          · have hR : breakTextLoop len ws "" = [] := by
              have hall : ∀ x ∈ ws, x = "" := by
                intro x hx
                have := List.filter_eq_nil_iff.mp hF x hx
                simpa using this
              cases ws with
              | nil => rfl
              | cons y ys =>
                cases ys with
                | nil =>
                  have hy : y = "" := hall y (List.mem_cons_self _ _)
                  subst hy
                  rfl
                | cons z zs =>
                  have hy : y ≠ "" := by
                    apply hOLE'
                    rw [List.dropLast_cons_of_ne_nil (by simp)]
                    exact List.mem_cons_self _ _
                  exact absurd (hall y (List.mem_cons_self _ _)) hy
            rw [hR, hF]
            left
            rw [glue, if_neg h0]
            rfl
          · have hEx : ∃ x ∈ ws, x ≠ "" := by
              by_contra hcon
              push_neg at hcon
              apply hF
              rw [List.filter_eq_nil_iff]
              intro a ha
              simp [hcon a ha]
            have hR : breakTextLoop len ws "" ≠ [] := breakTextLoop_ne_nil_exists len ws "" hEx
            rw [joinSep_cons_ne _ _ hR]
            rw [glue, if_neg h0, joinSep_cons_ne _ _ (by simp : (w :: ws.filter (fun x => x != "")) ≠ []),
              joinSep_cons_ne _ _ hF]
            rcases ih "" hOLE' with hIH | hIH
            · left
              rw [hIH, glue, if_pos rfl]
              simp only [str_append_assoc]
            · right
              rw [hIH, glue, if_pos rfl]
              simp only [str_append_assoc]
        · rw [if_neg hpush]
          rcases ih (line ++ " " ++ w) hOLE' with hIH | hIH
          all_goals rw [hIH, glue, if_neg hlw]
          · left
            by_cases hF : ws.filter (fun x => x != "") = []
            · rw [hF, glue, if_neg h0]
              rfl
            · rw [joinSep_cons_ne _ _ hF, glue, if_neg h0,
                joinSep_cons_ne _ _ (by simp : (w :: ws.filter (fun x => x != "")) ≠ []),
                joinSep_cons_ne _ _ hF]
              simp only [str_append_assoc]
          · right
            by_cases hF : ws.filter (fun x => x != "") = []
            · rw [hF, glue, if_neg h0]
              rfl
            · rw [joinSep_cons_ne _ _ hF, glue, if_neg h0,
                joinSep_cons_ne _ _ (by simp : (w :: ws.filter (fun x => x != "")) ≠ []),
                joinSep_cons_ne _ _ hF]
              simp only [str_append_assoc]

/-- C8 amended: joining all produced lines with single spaces yields the
whitespace-normalized input, possibly followed by one extra trailing
space; in particular no word is lost, duplicated or reordered. -/
theorem breakText_roundtrip (text : String) (len : Nat) :
    joinSep " " (breakText text len) = normalizedText text ∨
      joinSep " " (breakText text len) = normalizedText text ++ " " := by
  rcases splitWs_cases text with hOLE | ⟨rest, hrest, hOLE⟩
  · rcases breakTextLoop_join len (splitWs text) "" hOLE with h | h
    · left
      rw [breakText, h, glue, if_pos rfl, normalizedText]
    · right
      rw [breakText, h, glue, if_pos rfl, normalizedText]
  · have hstep : breakTextLoop len (splitWs text) "" = breakTextLoop len rest "" := by
      rw [hrest]
      rfl
    have hfilter : (splitWs text).filter (fun x => x != "") =
        rest.filter (fun x => x != "") := by
      rw [hrest]
      rfl
    rcases breakTextLoop_join len rest "" hOLE with h | h
    · left
      rw [breakText, hstep, h, glue, if_pos rfl, normalizedText, hfilter]
    · right
      rw [breakText, hstep, h, glue, if_pos rfl, normalizedText, hfilter]

/-! ## Wrapper unwrapping (C3) -/

theorem unwrapLoop_spec :
    ∀ (t : GType) (m : String),
      unwrapLoop t m = (if t.isWrapper then innermostMarker t else m, innermostNamed t)
  | GType.list u, m => by
    have ih := unwrapLoop_spec u "[]"
    show unwrapLoop u "[]" = _
    rw [ih]
    show _ = (innermostMarker (GType.list u), innermostNamed (GType.list u))
    rw [innermostMarker, innermostNamed]
  | GType.nonNull u, m => by
    have ih := unwrapLoop_spec u "!"
    show unwrapLoop u "!" = _
    rw [ih]
    show _ = (innermostMarker (GType.nonNull u), innermostNamed (GType.nonNull u))
    rw [innermostMarker, innermostNamed]
  | GType.scalar n d, m => rfl
  | GType.object n d ifs fs, m => rfl
  | GType.interface n d fs, m => rfl
  | GType.union n d ts, m => rfl
  | GType.enum n d vs, m => rfl
  | GType.inputObject n d fs, m => rfl

theorem innermost_of_not_wrapper (t : GType) (h : t.isWrapper = false) :
    innermostMarker t = "" ∧ innermostNamed t = t := by
  cases t <;> simp_all [GType.isWrapper, innermostMarker, innermostNamed]

/-- C3: type-reference rendering peels nested wrappers while overwriting
the single decoration marker, so the output is the link for the innermost
named type followed by exactly the marker of the innermost wrapper ("[]"
for List, "!" for NonNull); outer wrappers contribute nothing, and a bare
named reference carries no marker span at all. -/
theorem useIdentifier_innermost_marker (t : GType) (url : String) :
    useIdentifier t url =
      "<a class=\"support type\" href=\"" ++ url ++ "\" title=\""
          ++ descOrName (innermostNamed t) ++ "\">" ++ (innermostNamed t).name ++ "</a>"
        ++ (if innermostMarker t ≠ "" then
              "<span class=\"variable language\">" ++ innermostMarker t ++ "</span>"
            else "") := by
  rw [useIdentifier, unwrapLoop_spec t ""]
  by_cases hw : t.isWrapper = true
  · rw [if_pos hw]
    by_cases hm : innermostMarker t = ""
    · rw [if_neg (fun hcon => hcon hm), if_neg (fun hcon => hcon hm), hm]
    · rw [if_pos hm, if_pos hm]
  · have h := innermost_of_not_wrapper t (by simpa using hw)
    rw [if_neg hw, h.1, h.2]

/-! ## Deprecation marker (C4) -/

/-- C4: the deprecation marker is empty for an absent reason; it is
exactly one deprecated keyword with no parenthesis for the empty or
canonical default reason; and for any other reason it is the keyword
followed by a reason clause whose value went through the string-typed
literalizer. -/
theorem deprecated_spec (p : HTMLDocumentSchemaPlugin) (reason : Option String) :
    (reason = none → p.deprecated reason = "") ∧
    (∀ r, reason = some r → (r = "" ∨ r = DEFAULT_DEPRECATION_REASON) →
      p.deprecated reason = " " ++ keyword "@deprecated" ∧
        '(' ∉ (" " ++ keyword "@deprecated").data) ∧
    (∀ r, reason = some r → r ≠ "" → r ≠ DEFAULT_DEPRECATION_REASON →
      p.deprecated reason =
        " " ++ keyword "@deprecated"
          ++ "(" ++ parameter "reason" ++ ": " ++ val (p.value r GraphQLString) ++ ")") := by
  refine ⟨?_, ?_, ?_⟩
  · intro h
    subst h
    rfl
  · intro r h hr
    subst h
    constructor
    · rw [HTMLDocumentSchemaPlugin.deprecated, if_pos hr]
    · decide
  · intro r h hr hd
    subst h
    rw [HTMLDocumentSchemaPlugin.deprecated,
      if_neg (by rintro (h1 | h2); exact hr h1; exact hd h2)]

/-- C4 witness: the three shapes at concrete reasons under the sample
renderer. -/
theorem deprecated_spec_witness :
    samplePlugin.deprecated (some "use X") =
      " " ++ keyword "@deprecated"
        ++ "(" ++ parameter "reason" ++ ": "
        ++ val (samplePlugin.value "use X" GraphQLString) ++ ")" :=
  (deprecated_spec samplePlugin (some "use X")).2.2 "use X" rfl (by decide) (by decide)

/-! ## Filter Policy (C5) -/

/-- C5: a name appears in the whole-schema type listing exactly when it
is a key of the type map and is neither introspection-prefixed nor one of
the five built-in scalar names; Widget passes the filter while a
double-underscore name and String do not. -/
theorem isDefinedType_listing (p : HTMLDocumentSchemaPlugin) (schema : GSchema)
    (typeName : String) :
    (typeName ∈ p.sortedTypeNames schema isDefinedType ↔
        typeName ∈ schema.typeMap.map Prod.fst ∧ isDefinedType typeName = true) ∧
      isDefinedType "Widget" = true ∧
      isDefinedType "__Widget" = false ∧
      isDefinedType "String" = false := by
  refine ⟨?_, by decide, by decide, by decide⟩
  rw [HTMLDocumentSchemaPlugin.sortedTypeNames, List.mem_insertionSort]
  exact List.mem_filter

/-- C5 witness: Widget is listed for the sample schema. -/
theorem isDefinedType_listing_witness :
    "Widget" ∈ samplePlugin.sortedTypeNames sampleSchema isDefinedType :=
  (isDefinedType_listing samplePlugin sampleSchema "Widget").1.mpr ⟨by decide, by decide⟩

/-! ## Type Renderer dispatch (C9) and section record (C10) -/

/-- C9: the type renderer returns null exactly on values outside the
closed six-variant set (the wrappers); getSections then returns null too;
and on every value of the closed set it returns a non-null, nonempty
definition string. -/
theorem type_none_iff_wrapper (p : HTMLDocumentSchemaPlugin) (t : GType) :
    (p.type t = none ↔ t.isWrapper = true) ∧
      (t.isWrapper = true → p.getSections (Sum.inl t) = none) ∧
      (t.isWrapper = false → ∃ d, p.type t = some d ∧ d ≠ "") := by
  refine ⟨?_, ?_, ?_⟩
  · cases t <;> simp [HTMLDocumentSchemaPlugin.type, GType.isWrapper]
  · intro h
    cases t <;> simp [GType.isWrapper] at h <;>
      rfl
  · intro h
    cases t with
    | scalar n d =>
      exact ⟨_, rfl, str_ne_empty_of_append_right
        (str_ne_empty_of_append_right (by decide))⟩
    | object n d ifs fs =>
      exact ⟨_, rfl, str_ne_empty_of_append_right (by decide)⟩
    | interface n d fs =>
      exact ⟨_, rfl, str_ne_empty_of_append_right (by decide)⟩
    | union n d ts =>
      exact ⟨_, rfl, str_ne_empty_of_append_left (by decide)⟩
    | enum n d vs =>
      exact ⟨_, rfl, str_ne_empty_of_append_right (by decide)⟩
    | inputObject n d fs =>
      exact ⟨_, rfl, str_ne_empty_of_append_right (by decide)⟩
    | list u => simp [GType.isWrapper] at h
    | nonNull u => simp [GType.isWrapper] at h

/-- C9 witness: a List wrapper yields no section. -/
theorem type_none_iff_wrapper_witness :
    samplePlugin.getSections (Sum.inl (GType.list (GType.scalar "X" none))) = none :=
  (type_none_iff_wrapper samplePlugin (GType.list (GType.scalar "X" none))).2.1 rfl

/-- C10: whenever getSections returns a section, its title is the
construction-time title unchanged, and its description is the rendered
definition wrapped in exactly one pre element. -/
theorem getSections_shape (p : HTMLDocumentSchemaPlugin) (input : GType ⊕ GSchema)
    (sec : DocumentSection) (h : p.getSections input = some sec) :
    sec.title = p.title ∧
      ∃ d, sec.description = "<pre class=\"code\">" ++ d ++ "</pre>" ∧
        (match input with
         | Sum.inl t => p.type t = some d
         | Sum.inr s => p.schema s = d) := by
  match input with
  | Sum.inl t =>
    rw [HTMLDocumentSchemaPlugin.getSections] at h
    cases ht : p.type t with
    | none =>
      rw [ht] at h
      exact Option.noConfusion h
    | some d =>
      rw [ht] at h
      have h' : (if d ≠ "" then
          some (⟨p.title, "<pre class=\"code\">" ++ d ++ "</pre>"⟩ : DocumentSection)
        else none) = some sec := h
      by_cases hd : d ≠ ""
      · rw [if_pos hd] at h'
        injection h' with he
        subst he
        exact ⟨rfl, d, rfl, ht⟩
      · rw [if_neg hd] at h'
        exact Option.noConfusion h'
  | Sum.inr s =>
    rw [HTMLDocumentSchemaPlugin.getSections] at h
    have h' : (if p.schema s ≠ "" then
        some (⟨p.title, "<pre class=\"code\">" ++ p.schema s ++ "</pre>"⟩ : DocumentSection)
      else none) = some sec := h
    by_cases hd : p.schema s ≠ ""
    · rw [if_pos hd] at h'
      injection h' with he
      subst he
      exact ⟨rfl, p.schema s, rfl, rfl⟩
    · rw [if_neg hd] at h'
      exact Option.noConfusion h'

/-- C10 witness: the section produced for a concrete scalar type carries
the sample title. -/
theorem getSections_shape_witness :
    DocumentSection.title
        ⟨"Schema Types",
          "<pre class=\"code\">" ++ (keyword "scalar" ++ " " ++ identifier "S") ++ "</pre>"⟩ =
      samplePlugin.title :=
  (getSections_shape samplePlugin (Sum.inl (GType.scalar "S" none)) _ rfl).1

/-! ## Union rendering (C7) -/

/-- C7: evaluating the union renderer at a concrete union shows the
keyword span immediately followed by the union name — no space, and the
name is not wrapped in identifier markup — then the members joined by
vertical bars in declared order. -/
theorem union_rendering_eval :
    samplePlugin.union "U" [GType.scalar "A" none, GType.scalar "B" none] =
        keyword "union"
          ++ ("U = "
            ++ (useIdentifier (GType.scalar "A" none) "#" ++ " | "
              ++ useIdentifier (GType.scalar "B" none) "#")) ∧
      samplePlugin.union "U" [GType.scalar "A" none, GType.scalar "B" none] =
        "<span class=\"keyword operator ts\">union</span>U = "
          ++ "<a class=\"support type\" href=\"#\" title=\"A\">A</a> | "
          ++ "<a class=\"support type\" href=\"#\" title=\"B\">B</a>" := by
  constructor
  · decide
  · decide

/-! ## Last-character analysis for the trailing-newline shape of C6 -/

theorem lnn_append (a b : String) (h : lastNotNewline b) : lastNotNewline (a ++ b) := by
  obtain ⟨h1, h2⟩ := h
  refine ⟨?_, ?_⟩
  · rw [str_data_append]
    intro hcon
    exact h1 (List.append_eq_nil.mp hcon).2
  · rw [str_data_append, List.getLast?_append]
    cases hb : b.data.getLast? with
    | none => exact absurd (List.getLast?_eq_none_iff.mp hb) h1
    | some c =>
      rw [Option.or_some]
      rw [hb] at h2
      exact h2

theorem lnn_append_right_empty (a : String) (h : lastNotNewline a) :
    lastNotNewline (a ++ "") := by
  rw [str_append_empty]
  exact h

theorem lnn_joinSep (sep : String) :
    ∀ (l : List String), l ≠ [] → (∀ x ∈ l, lastNotNewline x) →
      lastNotNewline (joinSep sep l) := by
  intro l
  induction l with
  | nil => intro h; exact absurd rfl h
  | cons x xs ih =>
    intro _ hall
    cases xs with
    | nil => exact hall x (List.mem_singleton.mpr rfl)
    | cons y ys =>
      exact lnn_append (x ++ sep) _
        (ih (by simp) (fun z hz => hall z (List.mem_cons_of_mem x hz)))

theorem lnn_keyword (k : String) : lastNotNewline (keyword k) :=
  lnn_append _ _ (by decide)

theorem lnn_identifier (k : String) : lastNotNewline (identifier k) :=
  lnn_append _ _ (by decide)

theorem lnn_useIdentifier (t : GType) (url : String) :
    lastNotNewline (useIdentifier t url) := by
  rw [useIdentifier]
  by_cases h : (unwrapLoop t "").1 ≠ ""
  · rw [if_pos h]
    exact lnn_append _ _ (lnn_append _ _ (by decide))
  · rw [if_neg h]
    have he : (unwrapLoop t "").1 = "" := not_not.mp (fun hcon => h (fun hx => hcon hx))
    rw [he]
    exact lnn_append_right_empty _ (lnn_append _ _ (by decide))

theorem lnn_directive (p : HTMLDocumentSchemaPlugin) (d : DirectiveDef) :
    lastNotNewline (p.directive d) := by
  rw [HTMLDocumentSchemaPlugin.directive]
  cases hloc : d.locations with
  | nil =>
    exact lnn_append_right_empty _ (lnn_append _ _ (by decide))
  | cons x xs =>
    refine lnn_append _ _ (lnn_joinSep _ _ (by simp) ?_)
    intro z hz
    rcases List.mem_map.mp hz with ⟨loc, -, rfl⟩
    exact lnn_keyword loc

theorem lnn_schemaDefinition (p : HTMLDocumentSchemaPlugin) (s : GSchema) :
    lastNotNewline (p.schemaDefinition s) := by
  rw [HTMLDocumentSchemaPlugin.schemaDefinition]
  exact lnn_append _ _ (by decide)

theorem lnn_type (p : HTMLDocumentSchemaPlugin) (t : GType) (d : String)
    (h : p.type t = some d) : lastNotNewline d := by
  cases t with
  | scalar n desc =>
    injection h with he
    subst he
    exact lnn_append _ _ (lnn_identifier n)
  | object n desc ifs fs =>
    injection h with he
    subst he
    exact lnn_append _ _ (by decide)
  | interface n desc fs =>
    injection h with he
    subst he
    exact lnn_append _ _ (by decide)
  | union n desc ts =>
    injection h with he
    subst he
    rw [HTMLDocumentSchemaPlugin.union]
    cases ts with
    | nil =>
      exact lnn_append _ _ (lnn_append_right_empty _ (lnn_append _ _ (by decide)))
    | cons x xs =>
      refine lnn_append _ _ (lnn_append _ _ (lnn_joinSep _ _ (by simp) ?_))
      intro z hz
      rcases List.mem_map.mp hz with ⟨u, -, rfl⟩
      exact lnn_useIdentifier u (p.url u)
  | enum n desc vs =>
    injection h with he
    subst he
    exact lnn_append _ _ (by decide)
  | inputObject n desc fs =>
    injection h with he
    subst he
    exact lnn_append _ _ (by decide)
  | list u => exact Option.noConfusion h
  | nonNull u => exact Option.noConfusion h

theorem tmGet_not_wrapper (typeMap : List (String × GType)) (typeName : String)
    (h : ∀ e ∈ typeMap, (Prod.snd e).isWrapper = false) :
    (tmGet typeMap typeName).isWrapper = false := by
  rw [tmGet]
  cases hf : typeMap.find? (fun e => e.1 == typeName) with
  | none => rfl
  | some e => exact h e (List.mem_of_find?_eq_some hf)

theorem type_isSome_of_not_wrapper (p : HTMLDocumentSchemaPlugin) (t : GType)
    (h : t.isWrapper = false) : ∃ d, p.type t = some d := by
  cases t <;> simp [HTMLDocumentSchemaPlugin.type, GType.isWrapper] at h ⊢

/-- C6: whole-schema rendering is the schema-definition block, then one
block per surviving directive, then one block per surviving user type
with names sorted by the locale comparison, all separated by blank lines
and ending in a single trailing newline; the schema-definition block
lists only the present root operations in the fixed order query,
mutation, subscription. -/
theorem filteredSchema_structure (p : HTMLDocumentSchemaPlugin) (schema : GSchema)
    (hwf : ∀ e ∈ schema.typeMap, (Prod.snd e).isWrapper = false)
    (htotal : ∀ a b : String, p.localeCompare a b ≤ 0 ∨ p.localeCompare b a ≤ 0)
    (htrans : ∀ a b c : String,
      p.localeCompare a b ≤ 0 → p.localeCompare b c ≤ 0 → p.localeCompare a c ≤ 0) :
    p.schema schema =
      joinSep "\n\n"
        (p.schemaDefinition schema ::
          ((schema.directives.filter (fun directive => !isSpecDirective directive.name)).map
              (fun directive => p.directive directive) ++
            ((p.sortedTypeNames schema isDefinedType).map
                (fun typeName => tmGet schema.typeMap typeName)).map
              (fun type => (p.type type).getD "")))
        ++ "\n" ∧
    p.schemaDefinition schema =
      keyword "schema" ++ " \x7b\n"
        ++ joinSep "\n"
          ((match schema.queryType with
            | some queryType =>
              ["  " ++ property "query" ++ ": " ++ useIdentifier queryType (p.url queryType)]
            | none => []) ++
           (match schema.mutationType with
            | some mutationType =>
              ["  " ++ property "mutation" ++ ": "
                ++ useIdentifier mutationType (p.url mutationType)]
            | none => []) ++
           (match schema.subscriptionType with
            | some subscriptionType =>
              ["  " ++ property "subscription" ++ ": "
                ++ useIdentifier subscriptionType (p.url subscriptionType)]
            | none => []))
        ++ "\n\x7d" ∧
    List.Sorted (fun name1 name2 => p.localeCompare name1 name2 ≤ 0)
      (p.sortedTypeNames schema isDefinedType) ∧
    ∃ body, p.schema schema = body ++ "\n" ∧ body.data.getLast? ≠ some '\n' := by
  refine ⟨rfl, rfl, ?_, ?_⟩
  · rw [HTMLDocumentSchemaPlugin.sortedTypeNames]
    haveI : IsTotal String (fun name1 name2 => p.localeCompare name1 name2 ≤ 0) := ⟨htotal⟩
    haveI : IsTrans String (fun name1 name2 => p.localeCompare name1 name2 ≤ 0) := ⟨htrans⟩
    exact List.sorted_insertionSort _ _
  · refine ⟨_, rfl, ?_⟩
    have hall : ∀ x ∈
        (p.schemaDefinition schema ::
          ((schema.directives.filter (fun directive => !isSpecDirective directive.name)).map
              (fun directive => p.directive directive) ++
            ((p.sortedTypeNames schema isDefinedType).map
                (fun typeName => tmGet schema.typeMap typeName)).map
              (fun type => (p.type type).getD ""))),
        lastNotNewline x := by
      intro x hx
      rcases List.mem_cons.mp hx with rfl | hx
      · exact lnn_schemaDefinition p schema
      · rcases List.mem_append.mp hx with hx | hx
        · rcases List.mem_map.mp hx with ⟨dir, -, rfl⟩
          exact lnn_directive p dir
        · rcases List.mem_map.mp hx with ⟨t, ht, rfl⟩
          rcases List.mem_map.mp ht with ⟨n, -, rfl⟩
          have hnw : (tmGet schema.typeMap n).isWrapper = false :=
            tmGet_not_wrapper _ _ hwf
          rcases type_isSome_of_not_wrapper p _ hnw with ⟨d, hd⟩
          rw [hd]
          exact lnn_type p _ d hd
    exact (lnn_joinSep "\n\n" _ (by simp) hall).2

/-- C6 witness: the block structure at the sample schema under the
sample renderer. -/
theorem filteredSchema_structure_witness :
    samplePlugin.schema sampleSchema =
      joinSep "\n\n"
        (samplePlugin.schemaDefinition sampleSchema ::
          ((sampleSchema.directives.filter (fun directive => !isSpecDirective directive.name)).map
              (fun directive => samplePlugin.directive directive) ++
            ((samplePlugin.sortedTypeNames sampleSchema isDefinedType).map
                (fun typeName => tmGet sampleSchema.typeMap typeName)).map
              (fun type => (samplePlugin.type type).getD "")))
        ++ "\n" :=
  (filteredSchema_structure samplePlugin sampleSchema (by decide)
    (fun a b => Or.inl (Int.le_refl 0))
    (fun a b c h1 h2 => Int.le_refl 0)).1

/-! ## The Text Wrapper claims (C1, C2, C8) -/

/-- C1 counterexample: at width 3 the input with three short words yields
a first line of two words and length 5 — a non-final, multi-word line
longer than the width, refuting the claimed bound. -/
theorem breakText_width_counterexample :
    breakText "ab cd ef" 3 = ["ab cd", "ef"] ∧
      3 < ("ab cd" : String).length ∧
      splitWs "ab cd" = ["ab", "cd"] ∧
      ("ab" : String).length ≤ 3 ∧
      ("cd" : String).length ≤ 3 := by
  refine ⟨by decide, by decide, by decide, by decide, by decide⟩

/-- C1 amended: a produced line can exceed the width, but only by its
final word — removing the final word (and the separating space) always
leaves at most width characters. -/
theorem breakText_overflow_only_by_last_word (text : String) (len : Nat) :
    ∀ l ∈ breakText text len, (withoutLastWord l).length ≤ len := by
  intro l hl
  exact breakTextLoop_withoutLastWord len (splitWs text) ""
    (wsFree_splitWs text) (Nat.zero_le len) l hl

/-- C1 witness: the over-length line of the counterexample input fits
within the width once its final word is removed. -/
theorem breakText_overflow_only_by_last_word_witness :
    (withoutLastWord "ab cd").length ≤ 3 :=
  breakText_overflow_only_by_last_word "ab cd ef" 3 "ab cd" (by decide)

/-- C2 counterexample: at width 3 the six-character word does not appear
alone — it shares its output line with the preceding short word. -/
theorem breakText_long_word_counterexample :
    breakText "ab cdefgh" 3 = ["ab cdefgh"] ∧
      3 < ("cdefgh" : String).length ∧
      splitWs "ab cdefgh" = ["ab", "cdefgh"] ∧
      "ab cdefgh" ≠ "cdefgh" := by
  refine ⟨by decide, by decide, by decide, by decide⟩

/-- C2 amended: a word longer than the width is never split and can only
be the final word of its line — every non-final word of every produced
line fits within the width. -/
theorem breakText_non_final_words_fit (text : String) (len : Nat) :
    ∀ l ∈ breakText text len, ∀ t ∈ (splitSp l.data).dropLast, t.length ≤ len := by
  intro l hl t ht
  exact breakTextLoop_inner_words len (splitWs text) ""
    (wsFree_splitWs text) (Nat.zero_le len) l hl t ht

/-- C2 witness: in the counterexample line, the non-final word fits
within the width. -/
theorem breakText_non_final_words_fit_witness :
    (['a', 'b'] : List Char).length ≤ 3 :=
  breakText_non_final_words_fit "ab cdefgh" 3 "ab cdefgh" (by decide) ['a', 'b'] (by decide)

/-- C8 counterexample: an input ending in whitespace keeps a trailing
space on its last line, so the space-joined lines differ from the
whitespace-normalized input. -/
theorem breakText_roundtrip_counterexample :
    breakText "a " 10 = ["a "] ∧
      joinSep " " (breakText "a " 10) = "a " ∧
      normalizedText "a " = "a" ∧
      joinSep " " (breakText "a " 10) ≠ normalizedText "a " := by
  refine ⟨by decide, by decide, by decide, by decide⟩

end GraphdocPrintHtml
